import Mathlib

/-!
Shallow embedding of `convert_nsx.go`: the translation from an NSX-style
service model to Kubernetes NetworkPolicy records.

Go strings are modelled as Lean `String` (a structure around `List Char`);
character-level operations work on `String.data`.  Go's `int` is modelled
as `Int` with the 64-bit clamping that `strconv.ParseInt` performs on
range errors.
-/

namespace ConvertNsx

/-- `ServiceEntry` from `convert_nsx.go` (JSON fields
`display_name`, `l4_protocol`, `destination_ports`, `source_ports`). -/
structure ServiceEntry where
  display_name : String
  l4_protocol : String
  destination_ports : List String
  source_ports : List String
deriving DecidableEq

/-- `Service` from `convert_nsx.go`. -/
structure Service where
  display_name : String
  service_entries : List ServiceEntry
deriving DecidableEq

/-- `Root` from `convert_nsx.go`. -/
structure Root where
  services : List Service
deriving DecidableEq

/-- One element of a `ports` list in the output YAML: the anonymous
`struct { Port int; Protocol string }` of `convert_nsx.go`. -/
structure Port where
  port : Int
  protocol : String
deriving DecidableEq

/-- One ingress/egress rule block: the anonymous
`struct { Ports []... }` of `convert_nsx.go`. -/
structure PortGroup where
  ports : List Port
deriving DecidableEq

/-- The `NetworkPolicy` output record of `convert_nsx.go`.  The Go
`map[string]string` selector (always the single pair `app ↦ name`) is
modelled as an association list. -/
structure NetworkPolicy where
  apiVersion : String
  kind : String
  metadata_name : String
  metadata_namespace : String
  matchLabels : List (String × String)
  policyTypes : List String
  ingress : List PortGroup
  egress : List PortGroup
deriving DecidableEq

/-! ## Name sanitizer (`sanitizeName`) -/

/-- ASCII lower-casing of one character, as `strings.ToLower` acts on the
ASCII range (the only range the sanitizer's character class can keep). -/
def goLower (c : Char) : Char :=
  if 65 ≤ c.toNat ∧ c.toNat ≤ 90 then Char.ofNat (c.toNat + 32) else c

/-- Membership in `[a-z0-9]`: a lowercase-alphanumeric character. -/
def isLowerAlnum (c : Char) : Bool :=
  (97 ≤ c.toNat && c.toNat ≤ 122) || (48 ≤ c.toNat && c.toNat ≤ 57)

/-- Membership in the character class `[a-z0-9-]`, the complement of the
regexp `[^a-z0-9-]+` in `sanitizeName`. -/
def isAllowed (c : Char) : Bool :=
  isLowerAlnum c || c == '-'

/-- Worker for `re.ReplaceAllString(name, "-")` with pattern `[^a-z0-9-]+`:
each maximal run of characters outside `[a-z0-9-]` becomes one hyphen.
The flag records whether we are inside such a run (its hyphen already
emitted). -/
def replaceRunsAux : Bool → List Char → List Char
  | _, [] => []
  | inRun, c :: cs =>
    if isAllowed c then c :: replaceRunsAux false cs
    else if inRun then replaceRunsAux true cs
    else '-' :: replaceRunsAux true cs

/-- `regexp.MustCompile("[^a-z0-9-]+").ReplaceAllString(name, "-")`. -/
def replaceRuns (l : List Char) : List Char :=
  replaceRunsAux false l

/-- The cutset predicate of `strings.Trim(name, "-")`. -/
def isHyphen (c : Char) : Bool := c == '-'

/-- `strings.Trim(name, "-")`: remove leading and trailing hyphens. -/
def trimHyphens (l : List Char) : List Char :=
  (l.dropWhile isHyphen).rdropWhile isHyphen

/-- `sanitizeName` from `convert_nsx.go`, at the character-list level:
lower-case, collapse every run outside `[a-z0-9-]` to one hyphen, trim
hyphens from both ends. -/
def sanitizeName (l : List Char) : List Char :=
  trimHyphens (replaceRuns (l.map goLower))

/-- `sanitizeName` on `String`. -/
def sanitizeNameS (s : String) : String :=
  ⟨sanitizeName s.data⟩

/-! ## Port parsing (`strconv.Atoi` with the error discarded) -/

def isDigitChar (c : Char) : Bool := 48 ≤ c.toNat && c.toNat ≤ 57

/-- Numeric value of an all-digit character list. -/
def digitsVal (l : List Char) : Nat :=
  l.foldl (fun a c => a * 10 + (c.toNat - 48)) 0

/-- Syntax phase of `strconv.ParseInt(s, 10, 0)`: an optional sign followed
by a non-empty digit string; `none` on any syntax error. -/
def atoiParse (l : List Char) : Option Int :=
  let signAndRest : Bool × List Char :=
    match l with
    | '-' :: r => (true, r)
    | '+' :: r => (false, r)
    | r => (false, r)
  match signAndRest with
  | (neg, rest) =>
    if rest.isEmpty then none
    else if rest.all isDigitChar then
      some (if neg then -(digitsVal rest : Int) else (digitsVal rest : Int))
    else none

def maxInt64 : Int := 9223372036854775807
def minInt64 : Int := -9223372036854775808

/-- `portInt, _ := strconv.Atoi(port)` from `convert_nsx.go`: the returned
value with the error ignored — `0` on a syntax error, the 64-bit clamp on
a range error, the parsed value otherwise. -/
def goAtoi (s : String) : Int :=
  match atoiParse s.data with
  | none => 0
  | some v => if v > maxInt64 then maxInt64 else if v < minInt64 then minInt64 else v

/-! ## Rule building and policy assembly (the body of `main`'s service loop) -/

/-- The inner token loop: one `ports` element per token, pairing the parsed
port with the entry's `L4Protocol`. -/
def mkPorts (protocol : String) (tokens : List String) : List Port :=
  tokens.map fun t => { port := goAtoi t, protocol := protocol }

/-- One iteration of the `for _, entry := range service.ServiceEntries`
loop: append an ingress group when `DestinationPorts` is non-empty and an
egress group when `SourcePorts` is non-empty. -/
def processEntry (acc : List PortGroup × List PortGroup) (e : ServiceEntry) :
    List PortGroup × List PortGroup :=
  (if e.destination_ports.isEmpty then acc.1
   else acc.1 ++ [{ ports := mkPorts e.l4_protocol e.destination_ports }],
   if e.source_ports.isEmpty then acc.2
   else acc.2 ++ [{ ports := mkPorts e.l4_protocol e.source_ports }])

/-- The whole entry loop, accumulating `ingressRules` and `egressRules`. -/
def processEntries (l : List ServiceEntry) : List PortGroup × List PortGroup :=
  l.foldl processEntry ([], [])

/-- Assembly of one `NetworkPolicy` for one service, as in `main`:
constant apiVersion/kind, sanitized name reused as the `app` label,
`policyTypes` gaining `"Ingress"`/`"Egress"` exactly when the respective
rule list is non-empty (Ingress appended first). -/
def assemble (s : Service) (ns : String) : NetworkPolicy :=
  { apiVersion := "networking.k8s.io/v1"
    kind := "NetworkPolicy"
    metadata_name := sanitizeNameS s.display_name
    metadata_namespace := ns
    matchLabels := [("app", sanitizeNameS s.display_name)]
    policyTypes :=
      (if (processEntries s.service_entries).1.isEmpty then [] else ["Ingress"]) ++
      (if (processEntries s.service_entries).2.isEmpty then [] else ["Egress"])
    ingress := (processEntries s.service_entries).1
    egress := (processEntries s.service_entries).2 }

/-- The `for _, service := range root.Services` loop: one policy per
service, in input order. -/
def convertAll (r : Root) (ns : String) : List NetworkPolicy :=
  r.services.map fun s => assemble s ns

/-! ## Property vocabulary (predicates used to state the claims) -/

/-- An ASCII alphanumeric character (either case). -/
def isAsciiAlnum (c : Char) : Bool :=
  (97 ≤ c.toNat && c.toNat ≤ 122) || (65 ≤ c.toNat && c.toNat ≤ 90) ||
    (48 ≤ c.toNat && c.toNat ≤ 57)

/-- The DNS-1123 label pattern `[a-z0-9]([a-z0-9-]*[a-z0-9])?`: non-empty,
every character in `[a-z0-9-]`, first and last characters alphanumeric. -/
def isDNS1123Label (s : String) : Bool :=
  (!s.data.isEmpty) && s.data.all isAllowed &&
    (match s.data.head? with | some c => isLowerAlnum c | none => false) &&
    (match s.data.getLast? with | some c => isLowerAlnum c | none => false)

/-- Whether a character list contains two adjacent hyphens. -/
def hasDoubleHyphen : List Char → Bool
  | [] => false
  | [_] => false
  | a :: b :: rest => (a == '-' && b == '-') || hasDoubleHyphen (b :: rest)

/-! ## Character-class lemmas -/

theorem isLowerAlnum_ranges {c : Char} (h : isLowerAlnum c = true) :
    (97 ≤ c.toNat ∧ c.toNat ≤ 122) ∨ (48 ≤ c.toNat ∧ c.toNat ≤ 57) := by
  simpa [isLowerAlnum, Bool.or_eq_true, Bool.and_eq_true, decide_eq_true_eq] using h

theorem isLowerAlnum_not_hyphen {c : Char} (h : isLowerAlnum c = true) : (c == '-') = false := by
  cases hb : (c == '-') with
  | false => rfl
  | true =>
    have hc : c = '-' := eq_of_beq hb
    subst hc
    exact absurd h (by decide)

theorem isLowerAlnum_isAllowed {c : Char} (h : isLowerAlnum c = true) : isAllowed c = true := by
  simp [isAllowed, h]

theorem isAllowed_not_hyphen_lower {c : Char} (h1 : isAllowed c = true)
    (h2 : isHyphen c = false) : isLowerAlnum c = true := by
  have h3 : isLowerAlnum c = true ∨ c = '-' := by simpa [isAllowed] using h1
  rcases h3 with h | h
  · exact h
  · subst h
    exact absurd h2 (by decide)

theorem goLower_eq_self_of_isAllowed {c : Char} (h : isAllowed c = true) : goLower c = c := by
  have h3 : isLowerAlnum c = true ∨ c = '-' := by simpa [isAllowed] using h
  rcases h3 with h1 | h1
  · rcases isLowerAlnum_ranges h1 with h2 | h2 <;>
      · have hne : ¬(65 ≤ c.toNat ∧ c.toNat ≤ 90) := by omega
        unfold goLower
        rw [if_neg hne]
  · subst h1
    decide

theorem toNat_ofNat_ascii {n : Nat} (h1 : 97 ≤ n) (h2 : n ≤ 122) : (Char.ofNat n).toNat = n := by
  unfold Char.ofNat Char.toNat
  split
  · unfold Char.ofNatAux
    show (UInt32.mk (BitVec.ofNatLt n _)).toNat = n
    simp [UInt32.toNat, BitVec.toNat_ofNatLt]
  · rename_i h
    exfalso
    apply h
    unfold Nat.isValidChar
    omega

theorem isLowerAlnum_goLower {c : Char} (h : isAsciiAlnum c = true) :
    isLowerAlnum (goLower c) = true := by
  have h3 : ((97 ≤ c.toNat ∧ c.toNat ≤ 122) ∨ (65 ≤ c.toNat ∧ c.toNat ≤ 90)) ∨
      (48 ≤ c.toNat ∧ c.toNat ≤ 57) := by
    simpa [isAsciiAlnum, Bool.or_eq_true, Bool.and_eq_true, decide_eq_true_eq] using h
  unfold goLower
  rcases h3 with (h4 | h4) | h4
  · rw [if_neg (by omega)]
    simp only [isLowerAlnum, Bool.or_eq_true, Bool.and_eq_true, decide_eq_true_eq]
    omega
  · rw [if_pos (by omega)]
    have h5 : (Char.ofNat (c.toNat + 32)).toNat = c.toNat + 32 :=
      toNat_ofNat_ascii (by omega) (by omega)
    simp only [isLowerAlnum, Bool.or_eq_true, Bool.and_eq_true, decide_eq_true_eq, h5]
    omega
  · rw [if_neg (by omega)]
    simp only [isLowerAlnum, Bool.or_eq_true, Bool.and_eq_true, decide_eq_true_eq]
    omega

/-! ## Lemmas about the regexp replacement -/

theorem mem_replaceRunsAux_allowed : ∀ (b : Bool) (l : List Char) (c : Char),
    c ∈ replaceRunsAux b l → isAllowed c = true := by
  intro b l
  induction l generalizing b with
  | nil => intro c hc; simp [replaceRunsAux] at hc
  | cons a rest ih =>
    intro c hc
    by_cases ha : isAllowed a = true
    · rw [replaceRunsAux, if_pos ha] at hc
      rcases List.mem_cons.mp hc with h | h
      · subst h; exact ha
      · exact ih false c h
    · rw [replaceRunsAux, if_neg ha] at hc
      cases b with
      | true => simpa using ih true c (by simpa using hc)
      | false =>
        rcases List.mem_cons.mp (by simpa using hc) with h | h
        · subst h; decide
        · exact ih true c h

theorem replaceRunsAux_eq_self (b : Bool) (l : List Char)
    (h : ∀ c ∈ l, isAllowed c = true) : replaceRunsAux b l = l := by
  induction l generalizing b with
  | nil => rfl
  | cons a rest ih =>
    have ha := h a (List.mem_cons_self a rest)
    rw [replaceRunsAux, if_pos ha, ih false fun c hc => h c (List.mem_cons_of_mem a hc)]

theorem mem_replaceRunsAux_of_mem {c : Char} (hc : isAllowed c = true) :
    ∀ (b : Bool) (l : List Char), c ∈ l → c ∈ replaceRunsAux b l := by
  intro b l
  induction l generalizing b with
  | nil => intro h; simp at h
  | cons a rest ih =>
    intro hmem
    by_cases ha : isAllowed a = true
    · rw [replaceRunsAux, if_pos ha]
      rcases List.mem_cons.mp hmem with h | h
      · subst h; exact List.mem_cons_self _ _
      · exact List.mem_cons_of_mem _ (ih false h)
    · rw [replaceRunsAux, if_neg ha]
      have hmem2 : c ∈ rest := by
        rcases List.mem_cons.mp hmem with h | h
        · subst h; exact absurd hc (by simp [ha])
        · exact h
      cases b with
      | true => simpa using ih true hmem2
      | false => simpa using List.mem_cons_of_mem '-' (ih true hmem2)

theorem replaceRunsAux_true_append (run ys : List Char)
    (hrun : ∀ c ∈ run, isAllowed c = false) :
    replaceRunsAux true (run ++ ys) = replaceRunsAux true ys := by
  induction run with
  | nil => rfl
  | cons a rest ih =>
    have ha := hrun a (List.mem_cons_self a rest)
    rw [List.cons_append, replaceRunsAux, if_neg (by simp [ha]), if_pos rfl,
      ih fun c hc => hrun c (List.mem_cons_of_mem a hc)]

theorem replaceRunsAux_run_append (b : Bool) (run ys : List Char) (hne : run ≠ [])
    (hrun : ∀ c ∈ run, isAllowed c = false) :
    replaceRunsAux b (run ++ ys) = replaceRunsAux b (' ' :: ys) := by
  cases run with
  | nil => cases hne rfl
  | cons a rest =>
    have ha := hrun a (List.mem_cons_self a rest)
    have hrest : ∀ c ∈ rest, isAllowed c = false :=
      fun c hc => hrun c (List.mem_cons_of_mem a hc)
    have hsp : isAllowed ' ' = false := by decide
    cases b with
    | true =>
      rw [List.cons_append, replaceRunsAux, if_neg (by simp [ha]), if_pos rfl,
        replaceRunsAux_true_append rest ys hrest]
      rw [replaceRunsAux, if_neg (by simp [hsp]), if_pos rfl]
    | false =>
      rw [List.cons_append, replaceRunsAux, if_neg (by simp [ha]), if_neg (by simp),
        replaceRunsAux_true_append rest ys hrest]
      rw [replaceRunsAux, if_neg (by simp [hsp]), if_neg (by simp)]

theorem replaceRuns_run_collapse (xs run ys : List Char) (hne : run ≠ [])
    (hrun : ∀ c ∈ run, isAllowed c = false) :
    replaceRuns (xs ++ (run ++ ys)) = replaceRuns (xs ++ ' ' :: ys) := by
  suffices h : ∀ b, replaceRunsAux b (xs ++ (run ++ ys)) = replaceRunsAux b (xs ++ ' ' :: ys) from
    h false
  induction xs with
  | nil => intro b; exact replaceRunsAux_run_append b run ys hne hrun
  | cons a xs ih =>
    intro b
    by_cases ha : isAllowed a = true
    · rw [List.cons_append, replaceRunsAux, if_pos ha, ih false,
        List.cons_append, replaceRunsAux, if_pos ha]
    · cases b with
      | true =>
        rw [List.cons_append, replaceRunsAux, if_neg ha, if_pos rfl, ih true,
          List.cons_append, replaceRunsAux, if_neg ha, if_pos rfl]
      | false =>
        rw [List.cons_append, replaceRunsAux, if_neg ha, if_neg (by simp), ih true,
          List.cons_append, replaceRunsAux, if_neg ha, if_neg (by simp)]

/-! ## Lemmas about `strings.Trim` -/

theorem mem_dropWhile_of_neg {α : Type} {p : α → Bool} {c : α} :
    ∀ {l : List α}, c ∈ l → p c = false → c ∈ l.dropWhile p := by
  intro l
  induction l with
  | nil => intro h _; simp at h
  | cons a rest ih =>
    intro hc hp
    rw [List.dropWhile_cons]
    by_cases ha : p a = true
    · rw [if_pos ha]
      rcases List.mem_cons.mp hc with h | h
      · subst h; rw [hp] at ha; cases ha
      · exact ih h hp
    · rw [if_neg ha]
      exact hc

theorem mem_trimHyphens_of_mem {c : Char} {l : List Char} (hc : c ∈ l)
    (hh : isHyphen c = false) : c ∈ trimHyphens l := by
  unfold trimHyphens List.rdropWhile
  exact List.mem_reverse.mpr
    (mem_dropWhile_of_neg (List.mem_reverse.mpr (mem_dropWhile_of_neg hc hh)) hh)

theorem mem_of_mem_trimHyphens {c : Char} {l : List Char} (hc : c ∈ trimHyphens l) : c ∈ l := by
  unfold trimHyphens at hc
  exact (List.dropWhile_suffix isHyphen).sublist.subset
    ((List.rdropWhile_prefix isHyphen _).sublist.subset hc)

theorem trimHyphens_head_not {l : List Char} (h : trimHyphens l ≠ []) :
    isHyphen ((trimHyphens l).head h) = false := by
  have hpre := List.rdropWhile_prefix isHyphen (l.dropWhile isHyphen)
  have hA : l.dropWhile isHyphen ≠ [] := by
    intro hnil
    apply h
    unfold trimHyphens
    rw [hnil]
    rfl
  have hh := hpre.head h
  unfold trimHyphens
  rw [hh]
  exact List.head_dropWhile_not isHyphen l _

theorem trimHyphens_getLast_not {l : List Char} (h : trimHyphens l ≠ []) :
    isHyphen ((trimHyphens l).getLast h) = false := by
  have := List.rdropWhile_last_not isHyphen (l.dropWhile isHyphen) h
  simpa using this

theorem trimHyphens_idem (l : List Char) : trimHyphens (trimHyphens l) = trimHyphens l := by
  have h1 : (trimHyphens l).dropWhile isHyphen = trimHyphens l := by
    cases hT : trimHyphens l with
    | nil => rfl
    | cons a t =>
      have hne : trimHyphens l ≠ [] := by rw [hT]; exact List.cons_ne_nil a t
      have h0 := trimHyphens_head_not (l := l) hne
      have h1 : (trimHyphens l).head? = some ((trimHyphens l).head hne) := List.head?_eq_head hne
      conv at h1 => lhs; rw [hT]
      have h2 : a = (trimHyphens l).head hne := by simpa using h1
      rw [← h2] at h0
      rw [List.dropWhile_cons, if_neg (by simp [h0])]
  show List.rdropWhile isHyphen ((trimHyphens l).dropWhile isHyphen) = trimHyphens l
  rw [h1]
  show List.rdropWhile isHyphen (List.rdropWhile isHyphen (l.dropWhile isHyphen)) = trimHyphens l
  rw [List.rdropWhile_idempotent]
  rfl

/-! ## Lemmas about `sanitizeName` -/

theorem mem_sanitizeName_allowed {c : Char} {l : List Char} (hc : c ∈ sanitizeName l) :
    isAllowed c = true :=
  mem_replaceRunsAux_allowed false (l.map goLower) c (mem_of_mem_trimHyphens hc)

theorem sanitizeName_idem (l : List Char) : sanitizeName (sanitizeName l) = sanitizeName l := by
  have hall : ∀ c ∈ sanitizeName l, isAllowed c = true := fun c hc => mem_sanitizeName_allowed hc
  have h1 : (sanitizeName l).map goLower = sanitizeName l := by
    rw [show (sanitizeName l).map goLower = (sanitizeName l).map id from
      List.map_congr_left fun a ha => goLower_eq_self_of_isAllowed (hall a ha), List.map_id]
  calc sanitizeName (sanitizeName l)
      = trimHyphens (replaceRunsAux false ((sanitizeName l).map goLower)) := rfl
    _ = trimHyphens (replaceRunsAux false (sanitizeName l)) := by rw [h1]
    _ = trimHyphens (sanitizeName l) := by rw [replaceRunsAux_eq_self false _ hall]
    _ = sanitizeName l := trimHyphens_idem _

theorem sanitizeName_ne_nil {l : List Char} {c : Char} (hc : c ∈ l)
    (ha : isAsciiAlnum c = true) : sanitizeName l ≠ [] := by
  have h1 : isLowerAlnum (goLower c) = true := isLowerAlnum_goLower ha
  have h2 : goLower c ∈ l.map goLower := List.mem_map_of_mem goLower hc
  have h3 : goLower c ∈ replaceRunsAux false (l.map goLower) :=
    mem_replaceRunsAux_of_mem (isLowerAlnum_isAllowed h1) false _ h2
  have h4 : goLower c ∈ sanitizeName l :=
    mem_trimHyphens_of_mem h3 (isLowerAlnum_not_hyphen h1)
  exact List.ne_nil_of_mem h4

theorem sanitizeName_head_lower {l : List Char} (h : sanitizeName l ≠ []) :
    isLowerAlnum ((sanitizeName l).head h) = true := by
  have hmem := List.head_mem h
  exact isAllowed_not_hyphen_lower (mem_sanitizeName_allowed hmem) (trimHyphens_head_not h)

theorem sanitizeName_getLast_lower {l : List Char} (h : sanitizeName l ≠ []) :
    isLowerAlnum ((sanitizeName l).getLast h) = true := by
  have hmem := List.getLast_mem h
  exact isAllowed_not_hyphen_lower (mem_sanitizeName_allowed hmem) (trimHyphens_getLast_not h)

theorem isDNS1123Label_sanitize {s : String} {c : Char} (hc : c ∈ s.data)
    (ha : isAsciiAlnum c = true) : isDNS1123Label (sanitizeNameS s) = true := by
  have hne : sanitizeName s.data ≠ [] := sanitizeName_ne_nil hc ha
  have hall : (sanitizeName s.data).all isAllowed = true :=
    List.all_eq_true.mpr fun x hx => mem_sanitizeName_allowed hx
  have hhd := sanitizeName_head_lower hne
  have hlast := sanitizeName_getLast_lower hne
  show ((!(sanitizeName s.data).isEmpty) && (sanitizeName s.data).all isAllowed &&
      (match (sanitizeName s.data).head? with
       | some c => isLowerAlnum c
       | none => false) &&
      (match (sanitizeName s.data).getLast? with
       | some c => isLowerAlnum c
       | none => false)) = true
  rw [List.head?_eq_head hne, List.getLast?_eq_getLast _ hne]
  have hemp : (sanitizeName s.data).isEmpty = false := by
    cases hT : sanitizeName s.data with
    | nil => exact absurd hT hne
    | cons a t => rfl
  rw [hemp, hall]
  simp [hhd, hlast]

/-! ## The entry loop as a filter-map -/

theorem foldl_processEntry (l : List ServiceEntry) (acc : List PortGroup × List PortGroup) :
    l.foldl processEntry acc =
      (acc.1 ++ (l.filter fun e => !e.destination_ports.isEmpty).map
          (fun e => { ports := mkPorts e.l4_protocol e.destination_ports }),
       acc.2 ++ (l.filter fun e => !e.source_ports.isEmpty).map
          (fun e => { ports := mkPorts e.l4_protocol e.source_ports })) := by
  induction l generalizing acc with
  | nil => simp
  | cons e rest ih =>
    rw [List.foldl_cons, ih]
    cases hd : e.destination_ports.isEmpty <;> cases hs : e.source_ports.isEmpty <;>
      simp [processEntry, hd, hs, List.filter_cons]

theorem processEntries_eq (l : List ServiceEntry) :
    processEntries l =
      ((l.filter fun e => !e.destination_ports.isEmpty).map
          (fun e => { ports := mkPorts e.l4_protocol e.destination_ports }),
       (l.filter fun e => !e.source_ports.isEmpty).map
          (fun e => { ports := mkPorts e.l4_protocol e.source_ports })) := by
  rw [processEntries, foldl_processEntry]
  simp

/-! ## The claims -/

/-- Claim C1, counterexample: in numeric mode an unparsable destination-port
token is not dropped — the entry with `destination_ports = ["80","abc"]` and
protocol TCP does not yield the single-record ingress group
`[{port 80, TCP}]`. -/
theorem C1_counterexample :
    (processEntries [{ display_name := "HTTP", l4_protocol := "TCP",
                       destination_ports := ["80", "abc"], source_ports := [] }]).1
      ≠ [{ ports := [{ port := 80, protocol := "TCP" }] }] := by decide

/-- Claim C1, amended: a destination-port token that fails base-10 integer
parsing is kept in the ingress port group with port value 0 (the discarded
`strconv.Atoi` error leaves the zero value); the entry with
`destination_ports = ["80","abc"]` and protocol TCP yields the ingress group
`[{port 80, TCP}, {port 0, TCP}]`. -/
theorem C1_bad_token_kept_as_zero :
    (∀ (p : String) (ts : List String) (t : String), t ∈ ts → atoiParse t.data = none →
        ({ port := 0, protocol := p } : Port) ∈ mkPorts p ts) ∧
    (processEntries [{ display_name := "HTTP", l4_protocol := "TCP",
                       destination_ports := ["80", "abc"], source_ports := [] }]).1
      = [{ ports := [{ port := 80, protocol := "TCP" },
                     { port := 0, protocol := "TCP" }] }] := by
  constructor
  · intro p ts t ht hp
    have h0 : goAtoi t = 0 := by simp [goAtoi, hp]
    have h1 : ({ port := goAtoi t, protocol := p } : Port) ∈ mkPorts p ts :=
      List.mem_map_of_mem _ ht
    rwa [h0] at h1
  · decide

/-- Witness for C1: the amended theorem applied to the token "abc" of the
list ["80","abc"]. -/
theorem C1_witness :
    ({ port := 0, protocol := "TCP" } : Port) ∈ mkPorts "TCP" ["80", "abc"] :=
  C1_bad_token_kept_as_zero.1 "TCP" ["80", "abc"] "abc" (by decide) (by decide)

/-- Claim C2: the "Web Service" example with entries TCP/80 and TCP/443 in
namespace "custom-namespace" yields exactly one policy named "web-service"
with policyTypes [Ingress] and the two ingress groups in entry order. -/
theorem C2_example1 :
    convertAll { services := [{ display_name := "Web Service",
                                service_entries :=
                                  [{ display_name := "HTTP", l4_protocol := "TCP",
                                     destination_ports := ["80"], source_ports := [] },
                                   { display_name := "HTTPS", l4_protocol := "TCP",
                                     destination_ports := ["443"],
                                     source_ports := [] }] }] } "custom-namespace"
      = [{ apiVersion := "networking.k8s.io/v1", kind := "NetworkPolicy",
           metadata_name := "web-service", metadata_namespace := "custom-namespace",
           matchLabels := [("app", "web-service")],
           policyTypes := ["Ingress"],
           ingress := [{ ports := [{ port := 80, protocol := "TCP" }] },
                       { ports := [{ port := 443, protocol := "TCP" }] }],
           egress := [] }] := by decide

/-- Claim C3: policyTypes contains "Ingress" iff the ingress groups are
non-empty, contains "Egress" iff the egress groups are non-empty, and when
both are present the order is exactly Ingress then Egress. -/
theorem C3_policyTypes_iff (s : Service) (ns : String) :
    ("Ingress" ∈ (assemble s ns).policyTypes ↔ (assemble s ns).ingress ≠ []) ∧
    ("Egress" ∈ (assemble s ns).policyTypes ↔ (assemble s ns).egress ≠ []) ∧
    ((assemble s ns).ingress ≠ [] → (assemble s ns).egress ≠ [] →
      (assemble s ns).policyTypes = ["Ingress", "Egress"]) := by
  simp only [assemble]
  cases h1 : (processEntries s.service_entries).1.isEmpty <;>
    cases h2 : (processEntries s.service_entries).2.isEmpty <;>
      simp_all [List.isEmpty_iff]

/-- Witness for C3: a service with both destination and source ports gets
policyTypes [Ingress, Egress]. -/
theorem C3_witness :
    (assemble { display_name := "s",
                service_entries := [{ display_name := "e", l4_protocol := "TCP",
                                      destination_ports := ["80"],
                                      source_ports := ["53"] }] }
      "default").policyTypes = ["Ingress", "Egress"] :=
  (C3_policyTypes_iff { display_name := "s",
                        service_entries := [{ display_name := "e", l4_protocol := "TCP",
                                              destination_ports := ["80"],
                                              source_ports := ["53"] }] }
    "default").2.2 (by decide) (by decide)

/-- Claim C4: the ingress (resp. egress) groups are exactly one group per
entry with a non-empty destination-port (resp. source-port) list, in entry
order, and no emitted group is empty. -/
theorem C4_rule_count_order (s : Service) (ns : String) :
    (assemble s ns).ingress
      = (s.service_entries.filter fun e => !e.destination_ports.isEmpty).map
          (fun e => { ports := mkPorts e.l4_protocol e.destination_ports }) ∧
    (assemble s ns).egress
      = (s.service_entries.filter fun e => !e.source_ports.isEmpty).map
          (fun e => { ports := mkPorts e.l4_protocol e.source_ports }) ∧
    (∀ g ∈ (assemble s ns).ingress, g.ports ≠ []) ∧
    (∀ g ∈ (assemble s ns).egress, g.ports ≠ []) := by
  have hpe := processEntries_eq s.service_entries
  refine ⟨?_, ?_, ?_, ?_⟩
  · show (processEntries s.service_entries).1 = _
    rw [hpe]
  · show (processEntries s.service_entries).2 = _
    rw [hpe]
  · intro g hg
    have hg2 : g ∈ (processEntries s.service_entries).1 := hg
    rw [hpe] at hg2
    obtain ⟨e, he, rfl⟩ := List.mem_map.mp hg2
    have hne : e.destination_ports ≠ [] := by
      have := List.of_mem_filter he
      simpa [List.isEmpty_iff] using this
    simp [mkPorts, hne]
  · intro g hg
    have hg2 : g ∈ (processEntries s.service_entries).2 := hg
    rw [hpe] at hg2
    obtain ⟨e, he, rfl⟩ := List.mem_map.mp hg2
    have hne : e.source_ports ≠ [] := by
      have := List.of_mem_filter he
      simpa [List.isEmpty_iff] using this
    simp [mkPorts, hne]

/-- Witness for C4: the emitted group of a TCP/80 entry is non-empty. -/
theorem C4_witness :
    ({ ports := mkPorts "TCP" ["80"] } : PortGroup).ports ≠ [] :=
  (C4_rule_count_order { display_name := "s",
                         service_entries := [{ display_name := "e", l4_protocol := "TCP",
                                               destination_ports := ["80"],
                                               source_ports := [] }] }
    "default").2.2.1 _ (by decide)

/-- Claim C5, counterexample: for the display name "###" the assembled
policy's metadata.name is the empty string, which is not a valid DNS-1123
label. -/
theorem C5_counterexample :
    (assemble { display_name := "###", service_entries := [] } "default").metadata_name = "" ∧
    isDNS1123Label
      (assemble { display_name := "###", service_entries := [] } "default").metadata_name
      = false := by decide

/-- Claim C5, amended: metadata.name and the "app" selector label value are
always the identical string, and whenever the display name contains at least
one ASCII alphanumeric character that string is a valid DNS-1123 label (a
display name with no alphanumeric character sanitizes to the empty string,
which is not a valid label). -/
theorem C5_name_label_agree (s : Service) (ns : String) :
    (assemble s ns).matchLabels = [("app", (assemble s ns).metadata_name)] ∧
    ((∃ c ∈ s.display_name.data, isAsciiAlnum c = true) →
      isDNS1123Label (assemble s ns).metadata_name = true) := by
  refine ⟨rfl, ?_⟩
  rintro ⟨c, hc, ha⟩
  exact isDNS1123Label_sanitize hc ha

/-- Witness for C5: the display name "Web Service" contains the
alphanumeric W and the assembled name is a valid DNS-1123 label. -/
theorem C5_witness :
    isDNS1123Label (assemble { display_name := "Web Service", service_entries := [] }
      "default").metadata_name = true :=
  (C5_name_label_agree { display_name := "Web Service", service_entries := [] }
    "default").2 ⟨'W', by decide, by decide⟩

/-- Claim C6, counterexample: "Web   Service--X" sanitizes to
"web-service--x", which contains two adjacent hyphens, so a run of
separators containing hyphens is not collapsed to a single hyphen. -/
theorem C6_counterexample :
    sanitizeNameS "Web   Service--X" = "web-service--x" ∧
    hasDoubleHyphen (sanitizeNameS "Web   Service--X").data = true := by decide

/-- Claim C6, amended: any maximal run of characters outside `[a-z0-9-]`
contributes exactly what a single such character does — one hyphen —
but hyphens themselves are inside the class and survive, so a separator run
containing hyphens can leave consecutive hyphens, as in
"Web   Service--X" ↦ "web-service--x". -/
theorem C6_run_collapse :
    (∀ (xs run ys : List Char), run ≠ [] → (∀ c ∈ run, isAllowed c = false) →
      replaceRuns (xs ++ (run ++ ys)) = replaceRuns (xs ++ ' ' :: ys)) ∧
    sanitizeNameS "Web   Service--X" = "web-service--x" :=
  ⟨replaceRuns_run_collapse, by decide⟩

/-- Witness for C6: the two-character disallowed run " !" behaves like the
single disallowed character " ". -/
theorem C6_witness :
    replaceRuns ([] ++ ([' ', '!'] ++ [])) = replaceRuns ([] ++ ' ' :: []) :=
  C6_run_collapse.1 [] [' ', '!'] [] (by decide) (by decide)

/-- Claim C7: the name sanitizer is idempotent. -/
theorem C7_sanitize_idempotent (s : String) :
    sanitizeNameS (sanitizeNameS s) = sanitizeNameS s := by
  show (⟨sanitizeName (sanitizeName s.data)⟩ : String) = ⟨sanitizeName s.data⟩
  rw [sanitizeName_idem]

/-- Claim C8: for every input string containing at least one ASCII
alphanumeric character, the sanitized name matches the DNS-1123 label
pattern `[a-z0-9]([a-z0-9-]*[a-z0-9])?`. -/
theorem C8_sanitize_valid (s : String)
    (h : ∃ c ∈ s.data, isAsciiAlnum c = true) :
    isDNS1123Label (sanitizeNameS s) = true := by
  obtain ⟨c, hc, ha⟩ := h
  exact isDNS1123Label_sanitize hc ha

/-- Witness for C8: "A!! B__C" contains the alphanumeric A and sanitizes to
a valid DNS-1123 label. -/
theorem C8_witness : isDNS1123Label (sanitizeNameS "A!! B__C") = true :=
  C8_sanitize_valid "A!! B__C" ⟨'A', by decide, by decide⟩

/-- Claim C9: a service with no entries yields a policy with empty
policyTypes and no ingress or egress groups, still carrying the sanitized
name and the namespace — a valid result, not an error. -/
theorem C9_empty_entries (s : Service) (ns : String) (h : s.service_entries = []) :
    (assemble s ns).policyTypes = [] ∧ (assemble s ns).ingress = [] ∧
    (assemble s ns).egress = [] ∧
    (assemble s ns).metadata_name = sanitizeNameS s.display_name ∧
    (assemble s ns).metadata_namespace = ns := by
  simp [assemble, h, processEntries]

/-- Witness for C9: the empty-entries service named "Web Service" in
namespace "ns1". -/
theorem C9_witness :
    (assemble { display_name := "Web Service", service_entries := [] } "ns1").policyTypes
        = [] ∧
    (assemble { display_name := "Web Service", service_entries := [] } "ns1").ingress = [] ∧
    (assemble { display_name := "Web Service", service_entries := [] } "ns1").egress = [] ∧
    (assemble { display_name := "Web Service", service_entries := [] } "ns1").metadata_name
        = sanitizeNameS "Web Service" ∧
    (assemble { display_name := "Web Service", service_entries := [] } "ns1").metadata_namespace
        = "ns1" :=
  C9_empty_entries { display_name := "Web Service", service_entries := [] } "ns1" rfl

/-- Claim C10: an entry with a non-empty destination-port (resp.
source-port) list produces one port record per token, in token order, each
paired with the entry's l4_protocol verbatim; a token failing base-10
parsing contributes port value 0 instead of being omitted. -/
theorem C10_port_records (e : ServiceEntry) :
    (e.destination_ports ≠ [] →
      (processEntries [e]).1
        = [{ ports := e.destination_ports.map
              fun t => { port := goAtoi t, protocol := e.l4_protocol } }]) ∧
    (e.source_ports ≠ [] →
      (processEntries [e]).2
        = [{ ports := e.source_ports.map
              fun t => { port := goAtoi t, protocol := e.l4_protocol } }]) ∧
    (∀ t : String, atoiParse t.data = none → goAtoi t = 0) := by
  refine ⟨?_, ?_, ?_⟩
  · intro h
    rw [processEntries_eq]
    simp [List.filter_cons, List.isEmpty_iff, h, mkPorts]
  · intro h
    rw [processEntries_eq]
    simp [List.filter_cons, List.isEmpty_iff, h, mkPorts]
  · intro t ht
    simp [goAtoi, ht]

/-- Witness for C10: the UDP entry with tokens ["53","abc"] produces its
two-record group ("abc" becoming port 0). -/
theorem C10_witness :
    (processEntries [{ display_name := "e", l4_protocol := "UDP",
                       destination_ports := ["53", "abc"], source_ports := ["123"] }]).1
      = [{ ports := ["53", "abc"].map fun t => { port := goAtoi t, protocol := "UDP" } }] :=
  (C10_port_records { display_name := "e", l4_protocol := "UDP",
                      destination_ports := ["53", "abc"],
                      source_ports := ["123"] }).1 (by decide)

end ConvertNsx
